import Mathlib

/-!
# op128.h : sized loads and stores, byte packs, ordered accesses, multimem stores

A shallow embedding of `src/collectives/device/op128.h`.

* Memory is byte addressed and little-endian (the byte order of the device).
* Every `asm` statement of the header becomes a call of the instruction it
  names: the call appends the instruction to the list of instructions the
  lane has issued and performs the instruction's effect on memory.
* `BytePack<Size>` is the array `u8[Size]`; the other members of the union
  (`native`, `u16`, `u32`, `u64`, `half`) are views of those bytes.
* The build target (`__CUDA_ARCH__`, `CUDART_VERSION`) is a value `Target`.

Addresses are natural numbers; the alignment that the instructions demand
of their address operand is the caller's obligation and is not checked.
-/

namespace Op128

/-! ## Bytes and little-endian words -/

/-- One byte of memory. -/
abbrev Byte := Fin 256

/-- Byte `i` of the little-endian encoding of `x`. -/
def byteOf (x i : Nat) : Byte := ⟨x / 256 ^ i % 256, Nat.mod_lt _ (by decide)⟩

/-- The little-endian word formed by `n` bytes, byte `0` least significant. -/
def leVal : (n : Nat) → (Fin n → Byte) → Nat
  | 0, _ => 0
  | n + 1, f => (f 0).val + 256 * leVal n (fun i => f i.succ)

/-- A byte-addressed memory. -/
abbrev Mem := Nat → Byte

/-- The value an `n`-byte load instruction places in its (zero-extended)
destination register: the little-endian word at `addr .. addr + n - 1`. -/
def loadBytes (m : Mem) (addr n : Nat) : Nat :=
  leVal n (fun i => m (addr + i.val))

/-- The memory after an `n`-byte store instruction: the `n` low bytes of the
source register go to `addr .. addr + n - 1`, every other byte is kept. -/
def storeBytes (m : Mem) (addr n x : Nat) : Mem :=
  fun b => if addr ≤ b ∧ b < addr + n then byteOf x (b - addr) else m b

/-! ## Instructions -/

/-- State spaces named by the instructions of the header. -/
inductive Space
  | global
  | shared
  deriving DecidableEq, Repr

/-- Ordering qualifier of a load or store (`weak` is the unqualified form). -/
inductive Sem
  | weak
  | volatile
  | relaxed
  | acquire
  | release
  deriving DecidableEq, Repr

/-- Scope of a fence or of a scoped access. -/
inductive Scope
  | cta
  | gpu
  | sys
  deriving DecidableEq, Repr

/-- Level of a `membar` instruction. -/
inductive MembarLevel
  | cta
  | gl
  | sys
  deriving DecidableEq, Repr

/-- The scope a `membar` level orders: `membar.gl` is device wide,
`membar.sys` is system wide. -/
def MembarLevel.scope : MembarLevel → Scope
  | .cta => .cta
  | .gl => .gpu
  | .sys => .sys

/-- Operand types that occur in the header. -/
inductive PtxType
  | b8
  | b16
  | b32
  | b64
  | u64
  | f32
  deriving DecidableEq, Repr

/-- Size in bytes of an operand type. -/
def PtxType.bytes : PtxType → Nat
  | .b8 => 1
  | .b16 => 2
  | .b32 => 4
  | .b64 => 8
  | .u64 => 8
  | .f32 => 4

/-- An issued instruction with its qualifiers, its address operand and, for a
store, the values of its source registers. `vec` is the vector length
(`1` for a scalar access, `2` for `.v2`, `4` for `.v4`). -/
inductive Instr
  | ld (sem : Sem) (scope : Option Scope) (space : Space) (vec : Nat) (ty : PtxType)
      (addr : Nat)
  | st (sem : Sem) (scope : Option Scope) (space : Space) (vec : Nat) (ty : PtxType)
      (addr : Nat) (vals : List Nat)
  | multimem_st (space : Space) (vec : Nat) (ty : PtxType) (addr : Nat) (vals : List Nat)
  | membar (level : MembarLevel)
  | fence_acq_rel (scope : Scope)
  deriving DecidableEq, Repr

/-- What a lane sees: the two memories and the instructions issued so far. -/
structure State where
  global : Mem
  shared : Mem
  issued : List Instr

/-- The memory of a state space. -/
def State.mem (s : State) : Space → Mem
  | .global => s.global
  | .shared => s.shared

/-- Replace the memory of a state space. -/
def State.setMem (s : State) : Space → Mem → State
  | .global, m => ⟨m, s.shared, s.issued⟩
  | .shared, m => ⟨s.global, m, s.issued⟩

/-- Record an issued instruction. -/
def State.issue (s : State) (i : Instr) : State :=
  ⟨s.global, s.shared, s.issued ++ [i]⟩

/-- Scalar load `ld{.sem}{.scope}.space.ty %0, [addr]`. -/
def ptx_ld (sem : Sem) (scope : Option Scope) (space : Space) (ty : PtxType) (addr : Nat)
    (s : State) : Nat × State :=
  (loadBytes (s.mem space) addr ty.bytes, s.issue (.ld sem scope space 1 ty addr))

/-- Vector load `ld{.sem}.space.v2.ty {%0,%1}, [addr]`: two consecutive
elements. -/
def ptx_ld_v2 (sem : Sem) (space : Space) (ty : PtxType) (addr : Nat)
    (s : State) : (Nat × Nat) × State :=
  ((loadBytes (s.mem space) addr ty.bytes,
    loadBytes (s.mem space) (addr + ty.bytes) ty.bytes),
   s.issue (.ld sem none space 2 ty addr))

/-- Scalar store `st{.sem}{.scope}.space.ty [addr], %1`. -/
def ptx_st (sem : Sem) (scope : Option Scope) (space : Space) (ty : PtxType) (addr : Nat)
    (val : Nat) (s : State) : State :=
  (s.setMem space (storeBytes (s.mem space) addr ty.bytes val)).issue
    (.st sem scope space 1 ty addr [val])

/-- Vector store `st{.sem}.space.v2.ty [addr], {%1,%2}`. -/
def ptx_st_v2 (sem : Sem) (space : Space) (ty : PtxType) (addr : Nat)
    (v0 v1 : Nat) (s : State) : State :=
  (s.setMem space
      (storeBytes (storeBytes (s.mem space) addr ty.bytes v0)
        (addr + ty.bytes) ty.bytes v1)).issue
    (.st sem none space 2 ty addr [v0, v1])

/-- Multicast store `multimem.st.space{.vN}.ty [addr], ...`. The replicas
behind a multicast address live on the peer devices, outside this state: the
instruction is recorded and the memories of the lane are kept. -/
def ptx_multimem_st (space : Space) (vec : Nat) (ty : PtxType) (addr : Nat)
    (vals : List Nat) (s : State) : State :=
  s.issue (.multimem_st space vec ty addr vals)

/-- Barrier `membar.level`. -/
def ptx_membar (level : MembarLevel) (s : State) : State :=
  s.issue (.membar level)

/-- Fence `fence.acq_rel.scope`. -/
def ptx_fence_acq_rel (scope : Scope) (s : State) : State :=
  s.issue (.fence_acq_rel scope)

/-! ## loadShmem128 and loadShmemMisaligned128 -/

/-- Source `load128`: `ld.volatile.global.v2.u64 {v0,v1}, [ptr]`. -/
def load128 (ptr : Nat) (s : State) : (Nat × Nat) × State :=
  ptx_ld_v2 .volatile .global .u64 ptr s

/-- Source `store128`: `st.volatile.global.v2.u64 [ptr], {v0,v1}`. -/
def store128 (ptr v0 v1 : Nat) (s : State) : State :=
  ptx_st_v2 .volatile .global .u64 ptr v0 v1 s

/-- Source `loadShmem128`: `ld.volatile.shared.v2.u64 {v0,v1}, [shmemAsmPtr]`. -/
def loadShmem128 (shmemAsmPtr : Nat) (s : State) : (Nat × Nat) × State :=
  ptx_ld_v2 .volatile .shared .u64 shmemAsmPtr s

/-- Source `storeShmem128`: `st.volatile.shared.v2.u64 [shmemAsmPtr], {v0,v1}`. -/
def storeShmem128 (shmemAsmPtr v0 v1 : Nat) (s : State) : State :=
  ptx_st_v2 .volatile .shared .u64 shmemAsmPtr v0 v1 s

/-- The intrinsic `__funnelshift_r(lo, hi, shift)`: the 64-bit value `hi:lo`
shifted right by `shift & 31` bits, of which the low 32 bits are returned. -/
def funnelshift_r (lo hi shift : Nat) : Nat :=
  ((hi * 2 ^ 32 + lo) >>> (shift &&& 31)) % 2 ^ 32

/-- The conversion `int(x)` of an unsigned value: the low 32 bits read as a
two's complement number. -/
def toInt32 (x : Nat) : Int :=
  if x % 2 ^ 32 < 2 ^ 31 then ((x % 2 ^ 32 : Nat) : Int) else ((x % 2 ^ 32 : Nat) : Int) - 2 ^ 32

/-- The conversion of an `int` to `unsigned int`: reduction modulo `2^32`. -/
def toUInt32 (z : Int) : Nat := (z % 2 ^ 32).toNat

/-! ## BytePack -/

/-- Source `BytePack<Size>`: the member `u8[Size]`; the other members of the union
are the views below. -/
@[ext] structure BytePack (Size : Nat) where
  u8 : Fin Size → Byte

/-- Byte `i` of a pack (`0` past the end, which no code below reads). -/
def BytePack.byte {Size : Nat} (p : BytePack Size) (i : Nat) : Byte :=
  if h : i < Size then p.u8 ⟨i, h⟩ else 0

/-- The member `native` read: the whole pack as one little-endian word. -/
def BytePack.native {Size : Nat} (p : BytePack Size) : Nat := leVal Size p.u8

/-- The assignment `ans.native = tmp`: `tmp` converted to the native type of
the pack, that is its `Size` low bytes. -/
def BytePack.ofNative (Size : Nat) (tmp : Nat) : BytePack Size :=
  ⟨fun i => byteOf tmp i.val⟩

/-- Element `k` of the view of a pack as an array of `sz`-byte words. -/
def BytePack.word {Size : Nat} (p : BytePack Size) (sz k : Nat) : Nat :=
  leVal sz (fun i => p.byte (sz * k + i.val))

/-- Assignment to element `k` of the view as an array of `sz`-byte words. -/
def BytePack.setWord {Size : Nat} (p : BytePack Size) (sz k x : Nat) : BytePack Size :=
  ⟨fun i => if sz * k ≤ i.val ∧ i.val < sz * k + sz then byteOf x (i.val - sz * k) else p.u8 i⟩

/-- The member `u16[k]`. -/
def BytePack.u16 {Size : Nat} (p : BytePack Size) (k : Nat) : Nat := p.word 2 k

/-- The member `u32[k]`. -/
def BytePack.u32 {Size : Nat} (p : BytePack Size) (k : Nat) : Nat := p.word 4 k

/-- The member `u64[k]`. -/
def BytePack.u64 {Size : Nat} (p : BytePack Size) (k : Nat) : Nat := p.word 8 k

/-- Assignment to `u32[k]`. -/
def BytePack.set_u32 {Size : Nat} (p : BytePack Size) (k x : Nat) : BytePack Size :=
  p.setWord 4 k x

/-- Assignment to `u64[k]`. -/
def BytePack.set_u64 {Size : Nat} (p : BytePack Size) (k x : Nat) : BytePack Size :=
  p.setWord 8 k x

/-- The member `half[k]`: `BytePack<Size/2> half[2]` overlays `u8[Size]`, so
`half[k]` starts at byte `k * (Size/2)`. -/
def BytePack.half {Size : Nat} (p : BytePack Size) (k : Nat) : BytePack (Size / 2) :=
  ⟨fun i => p.byte (Size / 2 * k + i.val)⟩

/-- Assignment to `half[k]`. -/
def BytePack.setHalf {Size : Nat} (p : BytePack Size) (k : Nat) (h : BytePack (Size / 2)) :
    BytePack Size :=
  ⟨fun i => if Size / 2 * k ≤ i.val ∧ i.val < Size / 2 * k + Size / 2
      then h.byte (i.val - Size / 2 * k) else p.u8 i⟩

/-- A local `BytePack<Size>` declared without initialiser. Every byte of it
is assigned before it is read. -/
def BytePack.uninit (Size : Nat) : BytePack Size := ⟨fun _ => 0⟩

/-- The value `{}` of `BytePack<0>`. -/
def BytePack.empty : BytePack 0 := ⟨fun i => i.elim0⟩

/-- Source `loadShmemMisaligned128<T>` with `sizeofT = sizeof(T)`. The anonymous
union of `tmp4[4]` and `tmp8[2]` is sixteen bytes with `u32` and `u64` views. -/
def loadShmemMisaligned128 (sizeofT : Nat) (ptr : Nat) (s : State) : (Nat × Nat) × State :=
  let r : BytePack 16 × State :=
    if sizeofT < 4 then
      let ptr4 := ptr &&& (2 ^ 64 - 4)
      [0, 1, 2, 3].foldl (fun (acc : BytePack 16 × State) (e : Nat) =>
        let lo := ptx_ld .weak none .shared .b32 (ptr4 + 4 * (e + 0)) acc.2
        let hi := ptx_ld .weak none .shared .b32 (ptr4 + 4 * (e + 1)) lo.2
        (acc.1.set_u32 e (funnelshift_r lo.1 hi.1 (toUInt32 (8 * Int.tmod (toInt32 ptr) 4))),
         hi.2)) (BytePack.uninit 16, s)
    else if sizeofT = 4 then
      [0, 1, 2, 3].foldl (fun (acc : BytePack 16 × State) (e : Nat) =>
        let r := ptx_ld .weak none .shared .b32 (ptr + sizeofT * e) acc.2
        (acc.1.set_u32 e r.1, r.2)) (BytePack.uninit 16, s)
    else
      [0, 1].foldl (fun (acc : BytePack 16 × State) (e : Nat) =>
        let r := ptx_ld .weak none .shared .b64 (ptr + sizeofT * e) acc.2
        (acc.1.set_u64 e r.1, r.2)) (BytePack.uninit 16, s)
  ((r.1.u64 0, r.1.u64 1), r.2)

/-- The reference the misaligned read is compared with: sixteen one-byte
loads at `ptr .. ptr + 15`, assembled into two little-endian 64-bit words. -/
def byteCopy128 (ptr : Nat) (s : State) : Nat × Nat :=
  (leVal 8 (fun i => s.shared (ptr + i.val)), leVal 8 (fun i => s.shared (ptr + 8 + i.val)))

/-! ## toPack and fromPack -/

/-- A value type `T` that `toPack` and `fromPack` move: `size` is
`BytePackOf<T>::Size`, `repr` gives the bytes an object of type `T` holding a
value occupies, `ofRepr` the value an object with given bytes holds. -/
class CxxType (T : Type) where
  size : Nat
  repr : T → Fin size → Byte
  ofRepr : (Fin size → Byte) → T

/-- The types the kernels move are plain bit patterns: a value is determined
by its bytes, and every string of `size` bytes is the bytes of a value. -/
class LawfulCxxType (T : Type) [CxxType T] : Prop where
  ofRepr_repr : ∀ v : T, CxxType.ofRepr (CxxType.repr v) = v
  repr_ofRepr : ∀ b : Fin (CxxType.size T) → Byte, CxxType.repr (CxxType.ofRepr b : T) = b

/-- Source `toPack`: `union { Pack p; T v; }; v = value; return p;`. -/
def toPack {T : Type} [CxxType T] (value : T) : BytePack (CxxType.size T) :=
  let storage : Fin (CxxType.size T) → Byte := CxxType.repr value
  ⟨storage⟩

/-- Source `fromPack`: `union { Pack p; T v; }; p = pack; return v;`. -/
def fromPack {T : Type} [CxxType T] (pack : BytePack (CxxType.size T)) : T :=
  let storage : Fin (CxxType.size T) → Byte := pack.u8
  CxxType.ofRepr storage

/-- An unsigned integer type of `n` bytes (`uint8_t`, `uint16_t`, `uint32_t`,
`uint64_t` for `n = 1, 2, 4, 8`). -/
@[ext] structure UIntN (n : Nat) where
  val : Fin (256 ^ n)

/-- Source `BytePackOf<T>` for an unsigned integer type: `Size = sizeof(T)`; the
object holds the value little-endian. -/
instance instCxxTypeUIntN (n : Nat) : CxxType (UIntN n) where
  size := n
  repr v := fun i => byteOf v.val.val i.val
  ofRepr b := ⟨⟨leVal n b % 256 ^ n, Nat.mod_lt _ (Nat.pos_pow_of_pos n (by decide))⟩⟩

/-- Source `BytePackOf<BytePack<Size>>`: `Size` bytes, also for `Size = 0`, where the
specialisation overrides `sizeof`. -/
instance instCxxTypeBytePack (Size : Nat) : CxxType (BytePack Size) where
  size := Size
  repr p := p.u8
  ofRepr b := ⟨b⟩

/-! ## Sized loads and stores -/

/-- The closed set of widths for which the templates are specialised. -/
inductive Width
  | w0
  | w1
  | w2
  | w4
  | w8
  | w16
  deriving DecidableEq, Repr

/-- The `Size` template argument of a width. -/
def Width.bytes : Width → Nat
  | .w0 => 0
  | .w1 => 1
  | .w2 => 2
  | .w4 => 4
  | .w8 => 8
  | .w16 => 16

/-- Source `DEFINE_ld_st`, the `ld_##space<bytes>` it defines. `data_cxx_bytes` is
`sizeof(data_cxx_ty)`, the width of the register `tmp`. -/
def DEFINE_ld (bytes data_cxx_bytes : Nat) (data_ptx_ty : PtxType) (space : Space)
    (addr : Nat) (s : State) : BytePack bytes × State :=
  let r := ptx_ld .weak none space data_ptx_ty addr s
  let tmp := r.1 % 256 ^ data_cxx_bytes
  (BytePack.ofNative bytes tmp, r.2)

/-- Source `DEFINE_ld_st`, the `ld_volatile_##space<bytes>` it defines. -/
def DEFINE_ld_volatile (bytes data_cxx_bytes : Nat) (data_ptx_ty : PtxType) (space : Space)
    (addr : Nat) (s : State) : BytePack bytes × State :=
  let r := ptx_ld .volatile none space data_ptx_ty addr s
  let tmp := r.1 % 256 ^ data_cxx_bytes
  (BytePack.ofNative bytes tmp, r.2)

/-- Source `DEFINE_ld_st`, the `st_##space<bytes>` it defines. -/
def DEFINE_st (bytes data_cxx_bytes : Nat) (data_ptx_ty : PtxType) (space : Space)
    (addr : Nat) (value : BytePack bytes) (s : State) : State :=
  let tmp := value.native % 256 ^ data_cxx_bytes
  ptx_st .weak none space data_ptx_ty addr tmp s

/-- Source `DEFINE_ld_st_16`, the `ld_##space<16>` it defines. -/
def DEFINE_ld_16 (space : Space) (addr : Nat) (s : State) : BytePack 16 × State :=
  let r := ptx_ld_v2 .weak space .b64 addr s
  (((BytePack.uninit 16).set_u64 0 r.1.1).set_u64 1 r.1.2, r.2)

/-- Source `DEFINE_ld_st_16`, the `ld_volatile_##space<16>` it defines. -/
def DEFINE_ld_volatile_16 (space : Space) (addr : Nat) (s : State) : BytePack 16 × State :=
  let r := ptx_ld_v2 .volatile space .b64 addr s
  (((BytePack.uninit 16).set_u64 0 r.1.1).set_u64 1 r.1.2, r.2)

/-- Source `DEFINE_ld_st_16`, the `st_##space<16>` it defines. -/
def DEFINE_st_16 (space : Space) (addr : Nat) (value : BytePack 16) (s : State) : State :=
  ptx_st_v2 .weak space .b64 addr (value.u64 0) (value.u64 1) s

/-- The specialisations `ld_##space<Size>`. -/
def ld_space (space : Space) : (w : Width) → Nat → State → BytePack w.bytes × State
  | .w0 => fun _ s => (BytePack.empty, s)
  | .w1 => DEFINE_ld 1 4 .b8 space
  | .w2 => DEFINE_ld 2 2 .b16 space
  | .w4 => DEFINE_ld 4 4 .b32 space
  | .w8 => DEFINE_ld 8 8 .b64 space
  | .w16 => DEFINE_ld_16 space

/-- The specialisations `ld_volatile_##space<Size>`. -/
def ld_volatile_space (space : Space) : (w : Width) → Nat → State → BytePack w.bytes × State
  | .w0 => fun _ s => (BytePack.empty, s)
  | .w1 => DEFINE_ld_volatile 1 4 .b8 space
  | .w2 => DEFINE_ld_volatile 2 2 .b16 space
  | .w4 => DEFINE_ld_volatile 4 4 .b32 space
  | .w8 => DEFINE_ld_volatile 8 8 .b64 space
  | .w16 => DEFINE_ld_volatile_16 space

/-- The specialisations `st_##space<Size>`. -/
def st_space (space : Space) : (w : Width) → Nat → BytePack w.bytes → State → State
  | .w0 => fun _ _ s => s
  | .w1 => DEFINE_st 1 4 .b8 space
  | .w2 => DEFINE_st 2 2 .b16 space
  | .w4 => DEFINE_st 4 4 .b32 space
  | .w8 => DEFINE_st 8 8 .b64 space
  | .w16 => DEFINE_st_16 space

/-- Source `ld_global<Size>(uintptr_t addr)`. -/
def ld_global (w : Width) (addr : Nat) (s : State) : BytePack w.bytes × State :=
  ld_space .global w addr s

/-- Source `ld_volatile_global<Size>(uintptr_t addr)`. -/
def ld_volatile_global (w : Width) (addr : Nat) (s : State) : BytePack w.bytes × State :=
  ld_volatile_space .global w addr s

/-- Source `ld_shared<Size>(uint32_t addr)`. -/
def ld_shared (w : Width) (addr : Nat) (s : State) : BytePack w.bytes × State :=
  ld_space .shared w addr s

/-- Source `ld_volatile_shared<Size>(uint32_t addr)`. -/
def ld_volatile_shared (w : Width) (addr : Nat) (s : State) : BytePack w.bytes × State :=
  ld_volatile_space .shared w addr s

/-- Source `st_global<Size>(uintptr_t addr, BytePack<Size> value)`. -/
def st_global (w : Width) (addr : Nat) (value : BytePack w.bytes) (s : State) : State :=
  st_space .global w addr value s

/-- Source `st_shared<Size>(uint32_t addr, BytePack<Size> value)`. -/
def st_shared (w : Width) (addr : Nat) (value : BytePack w.bytes) (s : State) : State :=
  st_space .shared w addr value s

/-! ## Ordered accesses, fences, multimem stores -/

/-- The build target: `__CUDA_ARCH__`, `CUDART_VERSION`, and the map the
intrinsic `__cvta_generic_to_global` applies to a generic address. -/
structure Target where
  cuda_arch : Nat
  cudart_version : Nat
  cvta_generic_to_global : Nat → Nat

/-- Source `cvta_to_global(ptr)`: `(uintptr_t)__cvta_generic_to_global(ptr)`. -/
def cvta_to_global (t : Target) (ptr : Nat) : Nat :=
  t.cvta_generic_to_global ptr % 2 ^ 64

/-- Source `ld_volatile_global(uint64_t *ptr)`. -/
def ld_volatile_global_ptr (t : Target) (ptr : Nat) (s : State) : Nat × State :=
  ptx_ld .volatile none .global .u64 (cvta_to_global t ptr) s

/-- Source `ld_relaxed_sys_global(uint64_t *ptr)`. -/
def ld_relaxed_sys_global (t : Target) (ptr : Nat) (s : State) : Nat × State :=
  if 700 ≤ t.cuda_arch then
    ptx_ld .relaxed (some .sys) .global .u64 (cvta_to_global t ptr) s
  else
    ptx_ld .volatile none .global .u64 (cvta_to_global t ptr) s

/-- Source `ld_acquire_sys_global(uint64_t *ptr)`. The fallback is the one `asm`
statement `ld.volatile.sys.global.u64 %0, [%1]; membar.gl;`. -/
def ld_acquire_sys_global (t : Target) (ptr : Nat) (s : State) : Nat × State :=
  if 700 ≤ t.cuda_arch then
    ptx_ld .acquire (some .sys) .global .u64 (cvta_to_global t ptr) s
  else
    let r := ptx_ld .volatile (some .sys) .global .u64 (cvta_to_global t ptr) s
    (r.1, ptx_membar .gl r.2)

/-- Source `st_volatile_global(uint64_t *ptr, uint64_t val)`. -/
def st_volatile_global (t : Target) (ptr val : Nat) (s : State) : State :=
  ptx_st .volatile none .global .u64 (cvta_to_global t ptr) val s

/-- Source `st_relaxed_sys_global(uint64_t *ptr, uint64_t val)`. -/
def st_relaxed_sys_global (t : Target) (ptr val : Nat) (s : State) : State :=
  if 700 ≤ t.cuda_arch then
    ptx_st .relaxed (some .sys) .global .u64 (cvta_to_global t ptr) val s
  else
    ptx_st .volatile none .global .u64 (cvta_to_global t ptr) val s

/-- Source `st_release_sys_global(uint64_t *ptr, uint64_t val)`. The fallback is the
one `asm` statement `membar.sys; st.volatile.global.u64 [%0], %1;`. -/
def st_release_sys_global (t : Target) (ptr val : Nat) (s : State) : State :=
  if 700 ≤ t.cuda_arch then
    ptx_st .release (some .sys) .global .u64 (cvta_to_global t ptr) val s
  else
    ptx_st .volatile none .global .u64 (cvta_to_global t ptr) val (ptx_membar .sys s)

/-- Source `fence_acq_rel_sys()`. -/
def fence_acq_rel_sys (t : Target) (s : State) : State :=
  if 700 ≤ t.cuda_arch then ptx_fence_acq_rel .sys s else ptx_membar .sys s

/-- Source `fence_acq_rel_gpu()`. -/
def fence_acq_rel_gpu (t : Target) (s : State) : State :=
  if 700 ≤ t.cuda_arch then ptx_fence_acq_rel .gpu s else ptx_membar .gl s

/-- The build guard `__CUDA_ARCH__ >= 900 && CUDART_VERSION >= 12010`. -/
def Target.multimem (t : Target) : Bool :=
  decide (900 ≤ t.cuda_arch) && decide (12010 ≤ t.cudart_version)

/-- Source `multimem_st_global<Size>(uintptr_t addr, BytePack<Size> val)`: the six
specialisations under the build guard, the generic no-op otherwise. -/
def multimem_st_global (t : Target) (w : Width) (addr : Nat) (val : BytePack w.bytes)
    (s : State) : State :=
  if t.multimem then
    match w, val with
    | .w0, _ => s
    | .w1, val => ptx_st .weak none .global .b8 addr ((val.byte 0).val % 2 ^ 32) s
    | .w2, val => ptx_st .weak none .global .b16 addr (val.u16 0) s
    | .w4, val => ptx_multimem_st .global 1 .b32 addr [val.u32 0] s
    | .w8, val => ptx_multimem_st .global 1 .b64 addr [val.u64 0] s
    | .w16, val =>
      ptx_multimem_st .global 4 .f32 addr [val.u32 0, val.u32 1, val.u32 2, val.u32 3] s
  else
    s

/-- Whether an instruction is a `multimem` instruction. -/
def Instr.isMultimem : Instr → Bool
  | .multimem_st _ _ _ _ _ => true
  | _ => false

/-- Whether an instruction is a store (plain or multimem). -/
def Instr.isStore : Instr → Bool
  | .st _ _ _ _ _ _ _ => true
  | .multimem_st _ _ _ _ _ => true
  | _ => false

/-- The bytes a store instruction carries: of each source register the low
bytes of the operand type, in order. -/
def Instr.payload : Instr → List Byte
  | .st _ _ _ _ ty _ vals => vals.flatMap (fun x => List.ofFn (fun i : Fin ty.bytes => byteOf x i.val))
  | .multimem_st _ _ ty _ vals =>
    vals.flatMap (fun x => List.ofFn (fun i : Fin ty.bytes => byteOf x i.val))
  | _ => []

/-- The scope a fence instruction orders, if the instruction is a fence. -/
def Instr.fenceScope : Instr → Option Scope
  | .membar level => some level.scope
  | .fence_acq_rel scope => some scope
  | _ => none

/-- The multicast store as specified, at one call: exactly one instruction
is issued, it is a store, it is a `multimem` instruction, and it carries the
bytes of the pack. -/
def IssuesOneMultimemStore (t : Target) (w : Width) (addr : Nat) (val : BytePack w.bytes)
    (s : State) : Prop :=
  ∃ i : Instr, (multimem_st_global t w addr val s).issued = s.issued ++ [i] ∧
    i.isStore = true ∧ i.isMultimem = true ∧
    i.payload = (List.range w.bytes).map val.byte

/-! ## Little-endian lemmas -/

theorem leVal_lt (n : Nat) (f : Fin n → Byte) : leVal n f < 256 ^ n := by
  induction n with
  | zero => simp [leVal]
  | succ n ih =>
    have h1 := ih (fun i => f i.succ)
    have h2 := (f 0).isLt
    simp only [leVal, pow_succ]
    omega

theorem byteOf_leVal (n : Nat) (f : Fin n → Byte) (i : Fin n) :
    byteOf (leVal n f) i.val = f i := by
  induction n with
  | zero => exact i.elim0
  | succ n ih =>
    have h2 := (f 0).isLt
    refine Fin.cases ?_ (fun j => ?_) i
    · apply Fin.ext
      simp only [byteOf, leVal, Fin.val_zero, pow_zero, Nat.div_one]
      omega
    · have hj := ih (fun i => f i.succ) j
      apply Fin.ext
      have hj2 := congrArg Fin.val hj
      simp only [byteOf] at hj2
      simp only [byteOf, leVal, Fin.val_succ]
      rw [← hj2, pow_succ, Nat.mul_comm (256 ^ j.val) 256, ← Nat.div_div_eq_div_mul]
      congr 2
      omega

theorem leVal_byteOf (n x : Nat) : leVal n (fun i => byteOf x i.val) = x % 256 ^ n := by
  induction n generalizing x with
  | zero => simp [leVal, Nat.mod_one]
  | succ n ih =>
    have h := ih (x / 256)
    simp only [leVal, Fin.val_zero, Fin.val_succ]
    have e : (fun i : Fin n => byteOf x (i.val + 1)) = fun i : Fin n => byteOf (x / 256) i.val := by
      funext i
      apply Fin.ext
      simp only [byteOf, pow_succ, Nat.mul_comm (256 ^ i.val) 256, Nat.div_div_eq_div_mul]
    rw [e, h]
    simp only [byteOf, pow_zero, Nat.div_one, pow_succ]
    rw [Nat.mul_comm (256 ^ n) 256, Nat.mod_mul]

/-! ## Memory and pack lemmas -/

theorem loadBytes_lt (m : Mem) (addr n : Nat) : loadBytes m addr n < 256 ^ n :=
  leVal_lt n _

theorem byteOf_loadBytes (m : Mem) (addr n i : Nat) (h : i < n) :
    byteOf (loadBytes m addr n) i = m (addr + i) :=
  byteOf_leVal n (fun j => m (addr + j.val)) ⟨i, h⟩

theorem byteOf_mod (x k i : Nat) (h : i < k) : byteOf (x % 256 ^ k) i = byteOf x i := by
  have h1 := byteOf_leVal k (fun j => byteOf x j.val) ⟨i, h⟩
  rw [leVal_byteOf] at h1
  exact h1

theorem BytePack.byte_val {Size : Nat} (p : BytePack Size) (i : Fin Size) :
    p.byte i.val = p.u8 i := by
  simp [BytePack.byte]

theorem BytePack.byte_of_lt {Size : Nat} (p : BytePack Size) (i : Nat) (h : i < Size) :
    p.byte i = p.u8 ⟨i, h⟩ := by
  simp [BytePack.byte, h]

theorem BytePack.byteOf_native {Size : Nat} (p : BytePack Size) (i : Nat) (h : i < Size) :
    byteOf p.native i = p.byte i := by
  rw [BytePack.byte_of_lt p i h]
  exact byteOf_leVal Size p.u8 ⟨i, h⟩

theorem BytePack.byteOf_word {Size : Nat} (p : BytePack Size) (sz k i : Nat) (h : i < sz) :
    byteOf (p.word sz k) i = p.byte (sz * k + i) :=
  byteOf_leVal sz (fun j => p.byte (sz * k + j.val)) ⟨i, h⟩

theorem State.mem_setMem (s : State) (sp sp' : Space) (m : Mem) :
    (s.setMem sp m).mem sp' = if sp' = sp then m else s.mem sp' := by
  cases sp <;> cases sp' <;> simp [State.setMem, State.mem]

theorem State.mem_issue (s : State) (i : Instr) (sp : Space) :
    (s.issue i).mem sp = s.mem sp := by
  cases sp <;> rfl

theorem DEFINE_ld_u8 (bytes c : Nat) (ty : PtxType) (space : Space) (addr : Nat) (s : State)
    (hc : bytes ≤ c) (hty : ty.bytes = bytes) (i : Fin bytes) :
    (DEFINE_ld bytes c ty space addr s).1.u8 i = s.mem space (addr + i.val) := by
  simp only [DEFINE_ld, ptx_ld, BytePack.ofNative, hty]
  rw [byteOf_mod _ _ _ (by omega), byteOf_loadBytes _ _ _ _ i.isLt]

theorem DEFINE_ld_volatile_u8 (bytes c : Nat) (ty : PtxType) (space : Space) (addr : Nat)
    (s : State) (hc : bytes ≤ c) (hty : ty.bytes = bytes) (i : Fin bytes) :
    (DEFINE_ld_volatile bytes c ty space addr s).1.u8 i = s.mem space (addr + i.val) := by
  simp only [DEFINE_ld_volatile, ptx_ld, BytePack.ofNative, hty]
  rw [byteOf_mod _ _ _ (by omega), byteOf_loadBytes _ _ _ _ i.isLt]

theorem DEFINE_st_mem (bytes c : Nat) (ty : PtxType) (space : Space) (addr : Nat)
    (v : BytePack bytes) (s : State) (hc : bytes ≤ c) (hty : ty.bytes = bytes)
    (sp : Space) (b : Nat) :
    (DEFINE_st bytes c ty space addr v s).mem sp b =
      if sp = space ∧ addr ≤ b ∧ b < addr + bytes then v.byte (b - addr) else s.mem sp b := by
  simp only [DEFINE_st, ptx_st, State.mem_issue, State.mem_setMem, hty]
  by_cases hsp : sp = space
  · subst hsp
    simp only [if_true, true_and, storeBytes]
    by_cases hb : addr ≤ b ∧ b < addr + bytes
    · rw [if_pos hb, if_pos hb, byteOf_mod _ _ _ (by omega),
        BytePack.byteOf_native _ _ (by omega)]
    · rw [if_neg hb, if_neg hb]
  · simp [hsp]

theorem DEFINE_ld_16_u8 (space : Space) (addr : Nat) (s : State) (i : Fin 16) :
    (DEFINE_ld_16 space addr s).1.u8 i = s.mem space (addr + i.val) := by
  have hi := i.isLt
  simp only [DEFINE_ld_16, ptx_ld_v2, BytePack.set_u64, BytePack.setWord, PtxType.bytes]
  by_cases h : i.val < 8
  · rw [if_neg (by omega), if_pos (by omega), byteOf_loadBytes _ _ _ _ (by omega)]
    congr 1
  · rw [if_pos (by omega), byteOf_loadBytes _ _ _ _ (by omega)]
    congr 1
    omega

theorem DEFINE_ld_volatile_16_u8 (space : Space) (addr : Nat) (s : State) (i : Fin 16) :
    (DEFINE_ld_volatile_16 space addr s).1.u8 i = s.mem space (addr + i.val) := by
  have hi := i.isLt
  simp only [DEFINE_ld_volatile_16, ptx_ld_v2, BytePack.set_u64, BytePack.setWord,
    PtxType.bytes]
  by_cases h : i.val < 8
  · rw [if_neg (by omega), if_pos (by omega), byteOf_loadBytes _ _ _ _ (by omega)]
    congr 1
  · rw [if_pos (by omega), byteOf_loadBytes _ _ _ _ (by omega)]
    congr 1
    omega

theorem DEFINE_st_16_mem (space : Space) (addr : Nat) (v : BytePack 16) (s : State)
    (sp : Space) (b : Nat) :
    (DEFINE_st_16 space addr v s).mem sp b =
      if sp = space ∧ addr ≤ b ∧ b < addr + 16 then v.byte (b - addr) else s.mem sp b := by
  simp only [DEFINE_st_16, ptx_st_v2, State.mem_issue, State.mem_setMem, PtxType.bytes,
    BytePack.u64]
  by_cases hsp : sp = space
  · subst hsp
    simp only [if_true, true_and, storeBytes]
    by_cases h1 : addr + 8 ≤ b ∧ b < addr + 8 + 8
    · rw [if_pos h1, if_pos (by omega), BytePack.byteOf_word _ _ _ _ (by omega)]
      congr 1
      omega
    · rw [if_neg h1]
      by_cases h0 : addr ≤ b ∧ b < addr + 8
      · rw [if_pos h0, if_pos (by omega), BytePack.byteOf_word _ _ _ _ (by omega)]
        congr 1
        omega
      · rw [if_neg h0, if_neg (by omega)]
  · simp [hsp]

/-- What a sized load returns: byte `i` of the pack is the byte of the
space's memory at `addr + i`. -/
theorem ld_space_u8 (space : Space) (w : Width) (addr : Nat) (s : State) (i : Fin w.bytes) :
    (ld_space space w addr s).1.u8 i = s.mem space (addr + i.val) := by
  cases w with
  | w0 => exact i.elim0
  | w1 => exact DEFINE_ld_u8 1 4 .b8 space addr s (by decide) rfl i
  | w2 => exact DEFINE_ld_u8 2 2 .b16 space addr s (by decide) rfl i
  | w4 => exact DEFINE_ld_u8 4 4 .b32 space addr s (by decide) rfl i
  | w8 => exact DEFINE_ld_u8 8 8 .b64 space addr s (by decide) rfl i
  | w16 => exact DEFINE_ld_16_u8 space addr s i

/-- What a sized volatile load returns. -/
theorem ld_volatile_space_u8 (space : Space) (w : Width) (addr : Nat) (s : State)
    (i : Fin w.bytes) :
    (ld_volatile_space space w addr s).1.u8 i = s.mem space (addr + i.val) := by
  cases w with
  | w0 => exact i.elim0
  | w1 => exact DEFINE_ld_volatile_u8 1 4 .b8 space addr s (by decide) rfl i
  | w2 => exact DEFINE_ld_volatile_u8 2 2 .b16 space addr s (by decide) rfl i
  | w4 => exact DEFINE_ld_volatile_u8 4 4 .b32 space addr s (by decide) rfl i
  | w8 => exact DEFINE_ld_volatile_u8 8 8 .b64 space addr s (by decide) rfl i
  | w16 => exact DEFINE_ld_volatile_16_u8 space addr s i

/-- What a sized store leaves in memory. -/
theorem st_space_mem (space : Space) (w : Width) (addr : Nat) (v : BytePack w.bytes)
    (s : State) (sp : Space) (b : Nat) :
    (st_space space w addr v s).mem sp b =
      if sp = space ∧ addr ≤ b ∧ b < addr + w.bytes then v.byte (b - addr)
      else s.mem sp b := by
  cases w with
  | w0 =>
    have : ¬ (sp = space ∧ addr ≤ b ∧ b < addr + Width.w0.bytes) := by
      simp only [Width.bytes]; omega
    rw [if_neg this]; rfl
  | w1 => exact DEFINE_st_mem 1 4 .b8 space addr v s (by decide) rfl sp b
  | w2 => exact DEFINE_st_mem 2 2 .b16 space addr v s (by decide) rfl sp b
  | w4 => exact DEFINE_st_mem 4 4 .b32 space addr v s (by decide) rfl sp b
  | w8 => exact DEFINE_st_mem 8 8 .b64 space addr v s (by decide) rfl sp b
  | w16 => exact DEFINE_st_16_mem space addr v s sp b

theorem BytePack.ext_byte {Size : Nat} (p q : BytePack Size)
    (h : ∀ i : Fin Size, p.u8 i = q.u8 i) : p = q := by
  apply BytePack.ext
  funext i
  exact h i

/-! ## Sized loads and stores: round trip, frame, halves -/

/-- C1: for every width, each space, every address and every pack, a store
followed by a load or a volatile load at the same address returns a pack
with the bytes of the stored one. -/
theorem store_then_load (w : Width) (a : Nat) (v : BytePack w.bytes) (s : State) :
    (ld_global w a (st_global w a v s)).1 = v ∧
    (ld_volatile_global w a (st_global w a v s)).1 = v ∧
    (ld_shared w a (st_shared w a v s)).1 = v ∧
    (ld_volatile_shared w a (st_shared w a v s)).1 = v := by
  refine ⟨?_, ?_, ?_, ?_⟩ <;> apply BytePack.ext_byte <;> intro i
  · simp only [ld_global, st_global, ld_space_u8, st_space_mem]
    rw [if_pos ⟨trivial, by omega, by have := i.isLt; omega⟩, Nat.add_sub_cancel_left,
      BytePack.byte_val]
  · simp only [ld_volatile_global, st_global, ld_volatile_space_u8, st_space_mem]
    rw [if_pos ⟨trivial, by omega, by have := i.isLt; omega⟩, Nat.add_sub_cancel_left,
      BytePack.byte_val]
  · simp only [ld_shared, st_shared, ld_space_u8, st_space_mem]
    rw [if_pos ⟨trivial, by omega, by have := i.isLt; omega⟩, Nat.add_sub_cancel_left,
      BytePack.byte_val]
  · simp only [ld_volatile_shared, st_shared, ld_volatile_space_u8, st_space_mem]
    rw [if_pos ⟨trivial, by omega, by have := i.isLt; omega⟩, Nat.add_sub_cancel_left,
      BytePack.byte_val]

/-- C4: at width 0 the four loads return the empty pack and the two stores
return; each leaves the state as it was, memories and issued instructions
alike, so no instruction is issued and no byte is read or written, whatever
the address. -/
theorem width_zero_is_noop (a : Nat) (v : BytePack 0) (s : State) :
    ld_global .w0 a s = (BytePack.empty, s) ∧
    ld_volatile_global .w0 a s = (BytePack.empty, s) ∧
    ld_shared .w0 a s = (BytePack.empty, s) ∧
    ld_volatile_shared .w0 a s = (BytePack.empty, s) ∧
    st_global .w0 a v s = s ∧
    st_shared .w0 a v s = s :=
  ⟨rfl, rfl, rfl, rfl, rfl, rfl⟩

/-- C5: on a target that fails the build guard, `multimem_st_global` of any
width returns the state it was given: no byte of either memory changes and
no instruction is issued. -/
theorem multimem_st_fallback (t : Target) (w : Width) (a : Nat) (v : BytePack w.bytes)
    (s : State) (h : ¬ (900 ≤ t.cuda_arch ∧ 12010 ≤ t.cudart_version)) :
    multimem_st_global t w a v s = s := by
  have ht : t.multimem = false := by
    simp only [Target.multimem, Bool.and_eq_false_imp, decide_eq_true_eq, decide_eq_false_iff_not]
    intro h1 h2
    exact h ⟨h1, h2⟩
  simp [multimem_st_global, ht]

/-- C5, at an `sm_80` target with a 12.1 toolkit and a four-byte pack. -/
theorem multimem_st_fallback_witness :
    multimem_st_global ⟨800, 12010, id⟩ .w4 64 (BytePack.ofNative 4 305419896)
      ⟨fun _ => 0, fun _ => 0, []⟩ = ⟨fun _ => 0, fun _ => 0, []⟩ :=
  multimem_st_fallback ⟨800, 12010, id⟩ .w4 64 (BytePack.ofNative 4 305419896)
    ⟨fun _ => 0, fun _ => 0, []⟩ (by decide)

/-- C9: a sized store writes byte `b - a` of the value to each address `b` of
`a .. a + w - 1` of its space and keeps every other byte of both memories;
the one-byte store keeps the three bytes after `a`; the one-byte load returns
the byte at `a`. -/
theorem store_frame (w : Width) (a : Nat) (v : BytePack w.bytes) (s : State) :
    (∀ b, (st_global w a v s).global b =
        if a ≤ b ∧ b < a + w.bytes then v.byte (b - a) else s.global b) ∧
    (st_global w a v s).shared = s.shared ∧
    (∀ b, (st_shared w a v s).shared b =
        if a ≤ b ∧ b < a + w.bytes then v.byte (b - a) else s.shared b) ∧
    (st_shared w a v s).global = s.global ∧
    (∀ (v1 : BytePack 1) (k : Nat),
        (st_global .w1 a v1 s).global (a + 1 + k) = s.global (a + 1 + k) ∧
        (st_shared .w1 a v1 s).shared (a + 1 + k) = s.shared (a + 1 + k)) ∧
    (∀ v1 : BytePack 1, (st_global .w1 a v1 s).global a = v1.byte 0 ∧
        (st_shared .w1 a v1 s).shared a = v1.byte 0) ∧
    (ld_global .w1 a s).1.byte 0 = s.global a ∧
    (ld_volatile_global .w1 a s).1.byte 0 = s.global a ∧
    (ld_shared .w1 a s).1.byte 0 = s.shared a ∧
    (ld_volatile_shared .w1 a s).1.byte 0 = s.shared a := by
  have hg : ∀ (w : Width) (v : BytePack w.bytes) b, (st_global w a v s).global b =
      if a ≤ b ∧ b < a + w.bytes then v.byte (b - a) else s.global b := by
    intro w v b
    have h := st_space_mem .global w a v s .global b
    simpa [st_global, State.mem] using h
  have hs : ∀ (w : Width) (v : BytePack w.bytes) b, (st_shared w a v s).shared b =
      if a ≤ b ∧ b < a + w.bytes then v.byte (b - a) else s.shared b := by
    intro w v b
    have h := st_space_mem .shared w a v s .shared b
    simpa [st_shared, State.mem] using h
  refine ⟨hg w v, ?_, hs w v, ?_, ?_, ?_, ?_, ?_, ?_, ?_⟩
  · funext b
    have h := st_space_mem .global w a v s .shared b
    simpa [st_global, State.mem] using h
  · funext b
    have h := st_space_mem .shared w a v s .global b
    simpa [st_shared, State.mem] using h
  · intro v1 k
    constructor
    · rw [hg .w1 v1, if_neg (by simp only [Width.bytes]; omega)]
    · rw [hs .w1 v1, if_neg (by simp only [Width.bytes]; omega)]
  · intro v1
    constructor
    · rw [hg .w1 v1, if_pos (by simp only [Width.bytes]; omega), Nat.sub_self]
    · rw [hs .w1 v1, if_pos (by simp only [Width.bytes]; omega), Nat.sub_self]
  · rw [BytePack.byte_of_lt _ 0 (by decide)]
    exact ld_space_u8 .global .w1 a s ⟨0, by decide⟩
  · rw [BytePack.byte_of_lt _ 0 (by decide)]
    exact ld_volatile_space_u8 .global .w1 a s ⟨0, by decide⟩
  · rw [BytePack.byte_of_lt _ 0 (by decide)]
    exact ld_space_u8 .shared .w1 a s ⟨0, by decide⟩
  · rw [BytePack.byte_of_lt _ 0 (by decide)]
    exact ld_volatile_space_u8 .shared .w1 a s ⟨0, by decide⟩

/-- C8: the 16-byte load is the pair of the 8-byte loads at `a` and `a + 8`
on the `half` view, the 16-byte store leaves the memories that the two 8-byte
stores of the halves leave, and a pack of even size is its two halves:
`half[0]` is the lower and `half[1]` the upper half of `u8`, and assigning
both halves of any pack of that size gives the pack back. -/
theorem sixteen_is_two_eights (a : Nat) (v : BytePack 16) (s : State) :
    ((ld_global .w16 a s).1.half 0 = (ld_global .w8 a s).1 ∧
     (ld_global .w16 a s).1.half 1 = (ld_global .w8 (a + 8) s).1) ∧
    ((ld_shared .w16 a s).1.half 0 = (ld_shared .w8 a s).1 ∧
     (ld_shared .w16 a s).1.half 1 = (ld_shared .w8 (a + 8) s).1) ∧
    ((ld_volatile_global .w16 a s).1.half 0 = (ld_volatile_global .w8 a s).1 ∧
     (ld_volatile_global .w16 a s).1.half 1 = (ld_volatile_global .w8 (a + 8) s).1) ∧
    ((ld_volatile_shared .w16 a s).1.half 0 = (ld_volatile_shared .w8 a s).1 ∧
     (ld_volatile_shared .w16 a s).1.half 1 = (ld_volatile_shared .w8 (a + 8) s).1) ∧
    ((st_global .w16 a v s).global =
        (st_global .w8 (a + 8) (v.half 1) (st_global .w8 a (v.half 0) s)).global ∧
     (st_global .w16 a v s).shared =
        (st_global .w8 (a + 8) (v.half 1) (st_global .w8 a (v.half 0) s)).shared) ∧
    ((st_shared .w16 a v s).shared =
        (st_shared .w8 (a + 8) (v.half 1) (st_shared .w8 a (v.half 0) s)).shared ∧
     (st_shared .w16 a v s).global =
        (st_shared .w8 (a + 8) (v.half 1) (st_shared .w8 a (v.half 0) s)).global) ∧
    (∀ (n : Nat) (p q : BytePack (2 * n)),
      (∀ i : Fin (2 * n / 2), (p.half 0).u8 i = p.byte i.val ∧
        (p.half 1).u8 i = p.byte (2 * n / 2 + i.val)) ∧
      (q.setHalf 0 (p.half 0)).setHalf 1 (p.half 1) = p ∧
      (∀ h0 h1 : BytePack (2 * n / 2),
        ((q.setHalf 0 h0).setHalf 1 h1).half 0 = h0 ∧
        ((q.setHalf 0 h0).setHalf 1 h1).half 1 = h1)) := by
  have hld : ∀ sp : Space,
      (ld_space sp .w16 a s).1.half 0 = (ld_space sp .w8 a s).1 ∧
      (ld_space sp .w16 a s).1.half 1 = (ld_space sp .w8 (a + 8) s).1 := by
    intro sp
    constructor <;> apply BytePack.ext_byte <;> intro i <;> have hi := i.isLt <;>
      simp only [Width.bytes] at hi
    · simp only [BytePack.half]
      rw [BytePack.byte_of_lt _ _ (by simp only [Width.bytes]; omega), ld_space_u8, ld_space_u8]
      congr 1
      simp only [Width.bytes]
      omega
    · simp only [BytePack.half]
      rw [BytePack.byte_of_lt _ _ (by simp only [Width.bytes]; omega), ld_space_u8, ld_space_u8]
      congr 1
      simp only [Width.bytes]
      omega
  have hldv : ∀ sp : Space,
      (ld_volatile_space sp .w16 a s).1.half 0 = (ld_volatile_space sp .w8 a s).1 ∧
      (ld_volatile_space sp .w16 a s).1.half 1 = (ld_volatile_space sp .w8 (a + 8) s).1 := by
    intro sp
    constructor <;> apply BytePack.ext_byte <;> intro i <;> have hi := i.isLt <;>
      simp only [Width.bytes] at hi
    · simp only [BytePack.half]
      rw [BytePack.byte_of_lt _ _ (by simp only [Width.bytes]; omega), ld_volatile_space_u8,
        ld_volatile_space_u8]
      congr 1
      simp only [Width.bytes]
      omega
    · simp only [BytePack.half]
      rw [BytePack.byte_of_lt _ _ (by simp only [Width.bytes]; omega), ld_volatile_space_u8,
        ld_volatile_space_u8]
      congr 1
      simp only [Width.bytes]
      omega
  have hst : ∀ (sp sp' : Space) (b : Nat), (st_space sp .w16 a v s).mem sp' b =
      (st_space sp .w8 (a + 8) (v.half 1) (st_space sp .w8 a (v.half 0) s)).mem sp' b := by
    intro sp sp' b
    simp only [st_space_mem, Width.bytes]
    by_cases hsp : sp' = sp
    · simp only [hsp, true_and]
      by_cases h1 : a + 8 ≤ b ∧ b < a + 8 + 8
      · rw [if_pos (by omega), if_pos h1]
        simp only [BytePack.byte, BytePack.half]
        rw [dif_pos (by omega), dif_pos (by omega), dif_pos (by omega)]
        congr 2
        omega
      · rw [if_neg h1]
        by_cases h0 : a ≤ b ∧ b < a + 8
        · rw [if_pos (by omega), if_pos h0]
          simp only [BytePack.byte, BytePack.half]
          rw [dif_pos (by omega), dif_pos (by omega), dif_pos (by omega)]
          congr 2
          omega
        · rw [if_neg (by omega), if_neg h0]
    · simp [hsp]
  refine ⟨hld .global, hld .shared, hldv .global, hldv .shared, ⟨?_, ?_⟩, ⟨?_, ?_⟩, ?_⟩
  · funext b; exact hst .global .global b
  · funext b; exact hst .global .shared b
  · funext b; exact hst .shared .shared b
  · funext b; exact hst .shared .global b
  · intro n p q
    refine ⟨fun i => ⟨?_, ?_⟩, ?_, fun h0 h1 => ⟨?_, ?_⟩⟩
    · simp [BytePack.half]
    · simp [BytePack.half]
    · apply BytePack.ext_byte
      intro i
      have hi := i.isLt
      simp only [BytePack.setHalf, BytePack.half]
      by_cases h : i.val < 2 * n / 2
      · rw [if_neg (by omega), if_pos (by omega), BytePack.byte_of_lt _ _ (by omega)]
        simp only [BytePack.byte]
        rw [dif_pos (by omega)]
        congr 2
        omega
      · rw [if_pos (by omega), BytePack.byte_of_lt _ _ (by omega)]
        simp only [BytePack.byte]
        rw [dif_pos (by omega)]
        congr 2
        omega
    · apply BytePack.ext_byte
      intro i
      have hi := i.isLt
      simp only [BytePack.setHalf, BytePack.half, BytePack.byte]
      rw [dif_pos (by omega), if_neg (by omega), if_pos (by omega), dif_pos (by omega)]
      congr 2
      omega
    · apply BytePack.ext_byte
      intro i
      have hi := i.isLt
      simp only [BytePack.setHalf, BytePack.half, BytePack.byte]
      rw [dif_pos (by omega), if_pos (by omega), dif_pos (by omega)]
      congr 2
      omega

theorem tmod_negSucc (k n : Nat) : Int.tmod (Int.negSucc k) (n : Int) = -(((k + 1) % n : Nat) : Int) := rfl

theorem shift_amount (ptr : Nat) :
    toUInt32 (8 * Int.tmod (toInt32 ptr) 4) &&& 31 = 8 * (ptr % 4) := by
  have h31 : ∀ x : Nat, x &&& 31 = x % 32 := fun x => Nat.and_pow_two_sub_one_eq_mod x 5
  rw [h31]
  unfold toInt32 toUInt32
  split
  · rename_i h
    have e : Int.tmod ((ptr % 2 ^ 32 : Nat) : Int) 4 = ((ptr % 2 ^ 32 % 4 : Nat) : Int) := rfl
    rw [e]
    omega
  · rename_i h
    obtain ⟨k, hk⟩ := Int.eq_negSucc_of_lt_zero (a := ((ptr % 2 ^ 32 : Nat) : Int) - 2 ^ 32) (by omega)
    rw [hk]
    have e := tmod_negSucc k 4
    rw [show ((4 : Nat) : Int) = 4 from rfl] at e
    rw [e]
    rw [Int.negSucc_eq] at hk
    omega

theorem and_mask (ptr : Nat) (h : ptr < 2 ^ 64) : ptr &&& (2 ^ 64 - 4) = ptr - ptr % 4 := by
  apply Nat.eq_of_testBit_eq
  intro i
  have e1 : (2 ^ 64 - 4 : Nat) = (2 ^ 62 - 1) <<< 2 := by decide
  have e2 : ptr - ptr % 4 = (ptr >>> 2) <<< 2 := by
    rw [Nat.shiftLeft_eq, Nat.shiftRight_eq_div_pow]
    omega
  rw [e1, e2]
  simp only [Nat.testBit_and, Nat.testBit_shiftLeft, Nat.testBit_shiftRight,
    Nat.testBit_two_pow_sub_one]
  by_cases h2 : 2 ≤ i
  · by_cases h64 : i < 64
    · have : i - 2 < 62 := by omega
      simp [h2, this]
    · have hb : ptr.testBit i = false :=
        Nat.testBit_lt_two_pow (Nat.lt_of_lt_of_le h (Nat.pow_le_pow_right (by decide) (by omega)))
      have : ¬ (i - 2 < 62) := by omega
      simp [h2, this, hb]
  · simp [h2]

theorem funnel_byte (g : Nat → Byte) (sh r i : Nat) (hsh : sh &&& 31 = 8 * r) (hr : r < 4)
    (hi : i < 4) :
    byteOf (funnelshift_r (leVal 4 (fun j => g j.val)) (leVal 4 (fun j => g (4 + j.val))) sh) i
      = g (r + i) := by
  apply Fin.ext
  simp only [funnelshift_r, hsh, byteOf, leVal, Nat.shiftRight_eq_div_pow, Fin.val_zero,
    Fin.val_succ, Nat.mul_zero, Nat.add_zero]
  have h0 := (g 0).isLt
  have h1 := (g 1).isLt
  have h2 := (g 2).isLt
  have h3 := (g 3).isLt
  have h4 := (g 4).isLt
  have h5 := (g 5).isLt
  have h6 := (g 6).isLt
  have h7 := (g 7).isLt
  interval_cases r <;> interval_cases i <;> norm_num <;> omega

theorem funnel_load (m : Mem) (base base' a sh r i : Nat) (hsh : sh &&& 31 = 8 * r)
    (hr : r < 4) (hi : i < 4) (hb : base' = base + 4) (ha : a = base + r + i) :
    byteOf (funnelshift_r (loadBytes m base 4) (loadBytes m base' 4) sh) i = m a := by
  have h := funnel_byte (fun k => m (base + k)) sh r i hsh hr hi
  subst hb ha
  simp only [loadBytes, Nat.add_assoc] at h ⊢
  exact h

theorem set_u32_chain (x0 x1 x2 x3 : Nat) (j : Fin 16) :
    (((((BytePack.uninit 16).set_u32 0 x0).set_u32 1 x1).set_u32 2 x2).set_u32 3 x3).u8 j =
      if j.val < 4 then byteOf x0 j.val
      else if j.val < 8 then byteOf x1 (j.val - 4)
      else if j.val < 12 then byteOf x2 (j.val - 8)
      else byteOf x3 (j.val - 12) := by
  have hj := j.isLt
  simp only [BytePack.set_u32, BytePack.setWord]
  by_cases h1 : j.val < 4
  · rw [if_neg (by omega), if_neg (by omega), if_neg (by omega), if_pos (by omega), if_pos h1,
      Nat.mul_zero, Nat.sub_zero]
  · by_cases h2 : j.val < 8
    · rw [if_neg (by omega), if_neg (by omega), if_pos (by omega), if_neg h1, if_pos h2]
    · by_cases h3 : j.val < 12
      · rw [if_neg (by omega), if_pos (by omega), if_neg h1, if_neg h2, if_pos h3]
      · rw [if_pos (by omega), if_neg h1, if_neg h2, if_neg h3]

theorem set_u64_chain (x0 x1 : Nat) (j : Fin 16) :
    (((BytePack.uninit 16).set_u64 0 x0).set_u64 1 x1).u8 j =
      if j.val < 8 then byteOf x0 j.val else byteOf x1 (j.val - 8) := by
  have hj := j.isLt
  simp only [BytePack.set_u64, BytePack.setWord]
  by_cases h1 : j.val < 8
  · rw [if_neg (by omega), if_pos (by omega), if_pos h1, Nat.mul_zero, Nat.sub_zero]
  · rw [if_pos (by omega), if_neg h1]

/-- A sixteen-byte pack whose bytes are those of memory at `ptr ..` has the
two words of the byte-by-byte copy as its `u64` view. -/
theorem u64_of_bytes (p : BytePack 16) (m : Mem) (ptr : Nat)
    (h : ∀ j : Fin 16, p.u8 j = m (ptr + j.val)) :
    (p.u64 0, p.u64 1) =
      (leVal 8 (fun i => m (ptr + i.val)), leVal 8 (fun i => m (ptr + 8 + i.val))) := by
  simp only [BytePack.u64, BytePack.word]
  congr 2 <;> funext i <;> have hi := i.isLt
  · rw [BytePack.byte_of_lt _ _ (by omega), h]
    congr 1
    simp only []
    omega
  · rw [BytePack.byte_of_lt _ _ (by omega), h]
    congr 1
    simp only []
    omega

/-! ## toPack and fromPack -/

instance instLawfulUIntN (n : Nat) : LawfulCxxType (UIntN n) where
  ofRepr_repr v := by
    apply UIntN.ext
    apply Fin.ext
    show leVal n (fun i => byteOf v.val.val i.val) % 256 ^ n = v.val.val
    rw [leVal_byteOf, Nat.mod_mod, Nat.mod_eq_of_lt v.val.isLt]
  repr_ofRepr b := by
    funext i
    have hi : i.val < n := i.isLt
    show byteOf (leVal n b % 256 ^ n) i.val = b i
    rw [byteOf_mod _ n _ hi]
    exact byteOf_leVal n b i

instance instLawfulBytePack (Size : Nat) : LawfulCxxType (BytePack Size) where
  ofRepr_repr _ := rfl
  repr_ofRepr _ := rfl

/-- C2: for a value type whose objects are plain bit patterns, `fromPack`
undoes `toPack` and `toPack` undoes `fromPack`, and the pack `toPack` returns
has exactly the bytes of the object, in order. -/
theorem pack_reinterpretation (T : Type) [CxxType T] [LawfulCxxType T] :
    (∀ v : T, fromPack (toPack v) = v) ∧
    (∀ p : BytePack (CxxType.size T), toPack (fromPack p : T) = p) ∧
    (∀ v : T, (toPack v).u8 = CxxType.repr v) := by
  refine ⟨fun v => ?_, fun p => ?_, fun v => rfl⟩
  · exact LawfulCxxType.ofRepr_repr v
  · apply BytePack.ext
    exact LawfulCxxType.repr_ofRepr p.u8

/-- C2 at `uint32_t`: the value `0x12345678` and the pack of its four bytes. -/
theorem pack_reinterpretation_witness :
    fromPack (toPack (⟨305419896⟩ : UIntN 4)) = (⟨305419896⟩ : UIntN 4) ∧
    toPack (fromPack (BytePack.ofNative 4 305419896) : UIntN 4) =
      BytePack.ofNative 4 305419896 ∧
    (toPack (⟨305419896⟩ : UIntN 4)).native = 305419896 :=
  ⟨(pack_reinterpretation (UIntN 4)).1 _, (pack_reinterpretation (UIntN 4)).2.1 _, by
    show leVal 4 (fun i => byteOf 305419896 i.val) = 305419896
    rw [leVal_byteOf]
    norm_num⟩

/-! ## The misaligned read -/

/-- C3: for an element type of fewer than four bytes and every 64-bit
pointer, `loadShmemMisaligned128` returns the two little-endian words of the
sixteen bytes at `ptr .. ptr + 15`, as a byte-by-byte copy does; the result
is the same in any state whose shared memory agrees on these sixteen bytes. -/
theorem misaligned_read_is_byte_copy (sizeofT ptr : Nat) (s : State) (hT : sizeofT < 4)
    (hp : ptr < 2 ^ 64) :
    (loadShmemMisaligned128 sizeofT ptr s).1 = byteCopy128 ptr s ∧
    (∀ s' : State, (∀ i, i < 16 → s'.shared (ptr + i) = s.shared (ptr + i)) →
      (loadShmemMisaligned128 sizeofT ptr s').1 = (loadShmemMisaligned128 sizeofT ptr s).1) := by
  have main : ∀ s : State, (loadShmemMisaligned128 sizeofT ptr s).1 = byteCopy128 ptr s := by
    intro s
    simp only [loadShmemMisaligned128, if_pos hT, List.foldl, ptx_ld, State.mem_issue,
      byteCopy128, and_mask ptr hp, PtxType.bytes]
    apply u64_of_bytes
    intro j
    have hj := j.isLt
    have hsh := shift_amount ptr
    have hr : ptr % 4 < 4 := Nat.mod_lt _ (by decide)
    rw [set_u32_chain]
    simp only [State.mem]
    split_ifs with h1 h2 h3
    · exact funnel_load _ _ _ _ _ _ _ hsh hr (by omega) (by omega) (by omega)
    · exact funnel_load _ _ _ _ _ _ _ hsh hr (by omega) (by omega) (by omega)
    · exact funnel_load _ _ _ _ _ _ _ hsh hr (by omega) (by omega) (by omega)
    · exact funnel_load _ _ _ _ _ _ _ hsh hr (by omega) (by omega) (by omega)
  refine ⟨main s, fun s' h => ?_⟩
  rw [main s', main s]
  simp only [byteCopy128]
  congr 2 <;> funext i <;> have hi := i.isLt
  · exact h _ (by omega)
  · rw [Nat.add_assoc]
    exact h _ (by omega)

/-- C3 at a one-byte element type and the pointer `0x180000001`, whose low 32
bits are `0x80000001`: `int(ptr) % 4` is `-3` there. -/
theorem misaligned_read_is_byte_copy_witness :
    Int.tmod (toInt32 6442450945) 4 = -3 ∧
    (loadShmemMisaligned128 1 6442450945 ⟨fun _ => 0, fun a => byteOf a 0, []⟩).1 =
      byteCopy128 6442450945 ⟨fun _ => 0, fun a => byteOf a 0, []⟩ :=
  ⟨by decide, (misaligned_read_is_byte_copy 1 6442450945 ⟨fun _ => 0, fun a => byteOf a 0, []⟩
    (by decide) (by decide)).1⟩

theorem loadBytes_eight (m : Mem) (a : Nat) :
    loadBytes m a 8 = loadBytes m a 4 + 2 ^ 32 * loadBytes m (a + 4) 4 := by
  simp only [loadBytes, leVal, Fin.val_zero, Fin.val_succ, Nat.add_assoc]
  norm_num
  omega

/-- C10: for elements of four and of eight bytes `loadShmemMisaligned128`
returns the pair `loadShmem128` returns at the same address, the words of the
bytes at `ptr` and at `ptr + 8`; with four-byte elements it issues the four
loads at `ptr`, `ptr + 4`, `ptr + 8`, `ptr + 12` and joins their results
`tmp4[0] + 2^32 * tmp4[1]` and `tmp4[2] + 2^32 * tmp4[3]`; with eight-byte
elements it issues the two loads at `ptr` and `ptr + 8`. -/
theorem wide_elements_match_loadShmem128 (ptr : Nat) (s : State) :
    (loadShmemMisaligned128 4 ptr s).1 = (loadShmem128 ptr s).1 ∧
    (loadShmemMisaligned128 8 ptr s).1 = (loadShmem128 ptr s).1 ∧
    (loadShmem128 ptr s).1 = byteCopy128 ptr s ∧
    (loadShmemMisaligned128 4 ptr s).1 =
      (loadBytes s.shared ptr 4 + 2 ^ 32 * loadBytes s.shared (ptr + 4) 4,
       loadBytes s.shared (ptr + 8) 4 + 2 ^ 32 * loadBytes s.shared (ptr + 12) 4) ∧
    (loadShmemMisaligned128 4 ptr s).2.issued = s.issued ++
      [.ld .weak none .shared 1 .b32 ptr, .ld .weak none .shared 1 .b32 (ptr + 4),
       .ld .weak none .shared 1 .b32 (ptr + 8), .ld .weak none .shared 1 .b32 (ptr + 12)] ∧
    (loadShmemMisaligned128 8 ptr s).2.issued = s.issued ++
      [.ld .weak none .shared 1 .b64 ptr, .ld .weak none .shared 1 .b64 (ptr + 8)] := by
  have h128 : (loadShmem128 ptr s).1 = byteCopy128 ptr s := rfl
  have h4 : (loadShmemMisaligned128 4 ptr s).1 = byteCopy128 ptr s := by
    simp only [loadShmemMisaligned128, List.foldl, ptx_ld, State.mem_issue, byteCopy128,
      PtxType.bytes, Nat.lt_irrefl, if_true, if_false]
    apply u64_of_bytes
    intro j
    have hj := j.isLt
    rw [set_u32_chain]
    simp only [State.mem]
    split_ifs with h1 h2 h3
    · rw [byteOf_loadBytes _ _ _ _ (by omega)]; congr 1
    · rw [byteOf_loadBytes _ _ _ _ (by omega)]; congr 1; omega
    · rw [byteOf_loadBytes _ _ _ _ (by omega)]; congr 1; omega
    · rw [byteOf_loadBytes _ _ _ _ (by omega)]; congr 1; omega
  have h8 : (loadShmemMisaligned128 8 ptr s).1 = byteCopy128 ptr s := by
    have c1 : ¬ (8 < 4) := by decide
    have c2 : ¬ (8 = 4) := by decide
    simp only [loadShmemMisaligned128, List.foldl, ptx_ld, State.mem_issue, byteCopy128,
      PtxType.bytes, c1, c2, if_false]
    apply u64_of_bytes
    intro j
    have hj := j.isLt
    rw [set_u64_chain]
    simp only [State.mem]
    split_ifs with h1
    · rw [byteOf_loadBytes _ _ _ _ (by omega)]; congr 1
    · rw [byteOf_loadBytes _ _ _ _ (by omega)]; congr 1; omega
  refine ⟨h4.trans h128.symm, h8.trans h128.symm, h128, ?_, ?_, ?_⟩
  · rw [h4]
    have e0 := loadBytes_eight s.shared ptr
    have e1 := loadBytes_eight s.shared (ptr + 8)
    rw [Nat.add_assoc] at e1
    simp only [byteCopy128]
    exact Prod.ext e0 e1
  · simp [loadShmemMisaligned128, ptx_ld, State.issue]
  · simp [loadShmemMisaligned128, ptx_ld, State.issue]

/-! ## Multimem stores -/

/-- C6, as stated, fails: on an `sm_90` target with a 12.1 toolkit the
one-byte `multimem_st_global` does not issue a `multimem` instruction. -/
theorem one_byte_multimem_st_is_plain_store :
    ¬ IssuesOneMultimemStore ⟨900, 12010, id⟩ .w1 4096 (BytePack.ofNative 1 7)
      ⟨fun _ => 0, fun _ => 0, []⟩ := by
  rintro ⟨i, h1, _, h3, _⟩
  simp [multimem_st_global, Target.multimem, ptx_st, State.issue, State.setMem] at h1
  subst h1
  simp [Instr.isMultimem] at h3

theorem byteOf_val (x : Byte) : byteOf x.val 0 = x := by
  apply Fin.ext
  simp only [byteOf, pow_zero, Nat.div_one]
  exact Nat.mod_eq_of_lt x.isLt

/-- C6, amended: on a target that passes the build guard, the widths 4, 8
and 16 issue exactly one instruction, `multimem.st.global.b32`,
`multimem.st.global.b64` and `multimem.st.global.v4.f32`; the widths 1 and 2
issue exactly one instruction, the plain `st.global.b8` and `st.global.b16`,
which is no `multimem` instruction; each carries the bytes of the pack in
order; the width 0 issues nothing and returns the state unchanged. -/
theorem multimem_st_instructions (t : Target) (a : Nat) (s : State)
    (h : 900 ≤ t.cuda_arch ∧ 12010 ≤ t.cudart_version) :
    (∀ v : BytePack 0, multimem_st_global t .w0 a v s = s) ∧
    (∀ v : BytePack 1,
      (multimem_st_global t .w1 a v s).issued =
        s.issued ++ [.st .weak none .global 1 .b8 a [(v.byte 0).val % 2 ^ 32]] ∧
      (Instr.st .weak none .global 1 .b8 a [(v.byte 0).val % 2 ^ 32]).payload =
        (List.range 1).map v.byte) ∧
    (∀ v : BytePack 2,
      (multimem_st_global t .w2 a v s).issued =
        s.issued ++ [.st .weak none .global 1 .b16 a [v.u16 0]] ∧
      (Instr.st .weak none .global 1 .b16 a [v.u16 0]).payload = (List.range 2).map v.byte) ∧
    (∀ v : BytePack 4,
      (multimem_st_global t .w4 a v s).issued =
        s.issued ++ [.multimem_st .global 1 .b32 a [v.u32 0]] ∧
      (Instr.multimem_st .global 1 .b32 a [v.u32 0]).payload = (List.range 4).map v.byte) ∧
    (∀ v : BytePack 8,
      (multimem_st_global t .w8 a v s).issued =
        s.issued ++ [.multimem_st .global 1 .b64 a [v.u64 0]] ∧
      (Instr.multimem_st .global 1 .b64 a [v.u64 0]).payload = (List.range 8).map v.byte) ∧
    (∀ v : BytePack 16,
      (multimem_st_global t .w16 a v s).issued =
        s.issued ++ [.multimem_st .global 4 .f32 a [v.u32 0, v.u32 1, v.u32 2, v.u32 3]] ∧
      (Instr.multimem_st .global 4 .f32 a [v.u32 0, v.u32 1, v.u32 2, v.u32 3]).payload =
        (List.range 16).map v.byte) ∧
    (∀ (sem : Sem) (scope : Option Scope) (space : Space) (vec : Nat) (ty : PtxType)
      (addr : Nat) (vals : List Nat),
      (Instr.st sem scope space vec ty addr vals).isMultimem = false ∧
      (Instr.st sem scope space vec ty addr vals).isStore = true) ∧
    (∀ (space : Space) (vec : Nat) (ty : PtxType) (addr : Nat) (vals : List Nat),
      (Instr.multimem_st space vec ty addr vals).isMultimem = true ∧
      (Instr.multimem_st space vec ty addr vals).isStore = true) := by
  have ht : t.multimem = true := by
    simp [Target.multimem, h.1, h.2]
  have hpay : ∀ (Size : Nat) (v : BytePack Size) (sz k : Nat),
      List.ofFn (fun i : Fin sz => byteOf (v.word sz k) i.val) =
        List.ofFn (fun i : Fin sz => v.byte (sz * k + i.val)) := by
    intro Size v sz k
    congr 1
    funext i
    exact BytePack.byteOf_word v sz k i.val i.isLt
  refine ⟨fun v => ?_, fun v => ⟨?_, ?_⟩, fun v => ⟨?_, ?_⟩, fun v => ⟨?_, ?_⟩,
    fun v => ⟨?_, ?_⟩, fun v => ⟨?_, ?_⟩, fun _ _ _ _ _ _ _ => ⟨rfl, rfl⟩,
    fun _ _ _ _ _ => ⟨rfl, rfl⟩⟩
  · simp [multimem_st_global, ht]
  · simp [multimem_st_global, ht, ptx_st, State.issue, State.setMem]
  · have e : (v.byte 0).val % 2 ^ 32 = (v.byte 0).val :=
      Nat.mod_eq_of_lt (Nat.lt_of_lt_of_le (v.byte 0).isLt (by decide))
    rw [e]
    simp [Instr.payload, PtxType.bytes, List.ofFn_succ, List.range_succ, byteOf_val]
  · simp [multimem_st_global, ht, ptx_st, State.issue, State.setMem]
  · simp only [Instr.payload, PtxType.bytes, BytePack.u16, List.flatMap_cons, List.flatMap_nil,
      List.append_nil, hpay]
    simp [List.ofFn_succ, List.range_succ]
  · simp [multimem_st_global, ht, ptx_multimem_st, State.issue]
  · simp only [Instr.payload, PtxType.bytes, BytePack.u32, List.flatMap_cons, List.flatMap_nil,
      List.append_nil, hpay]
    simp [List.ofFn_succ, List.range_succ]
  · simp [multimem_st_global, ht, ptx_multimem_st, State.issue]
  · simp only [Instr.payload, PtxType.bytes, BytePack.u64, List.flatMap_cons, List.flatMap_nil,
      List.append_nil, hpay]
    simp [List.ofFn_succ, List.range_succ]
  · simp [multimem_st_global, ht, ptx_multimem_st, State.issue]
  · simp only [Instr.payload, PtxType.bytes, BytePack.u32, List.flatMap_cons, List.flatMap_nil,
      List.append_nil, hpay]
    simp [List.ofFn_succ, List.range_succ]

/-- C6 amended, at an `sm_90` target with a 12.1 toolkit. -/
theorem multimem_st_instructions_witness :
    (multimem_st_global ⟨900, 12010, id⟩ .w4 4096 (BytePack.ofNative 4 305419896)
      ⟨fun _ => 0, fun _ => 0, []⟩).issued =
      [] ++ [.multimem_st .global 1 .b32 4096 [(BytePack.ofNative 4 305419896).u32 0]] :=
  ((multimem_st_instructions ⟨900, 12010, id⟩ 4096 ⟨fun _ => 0, fun _ => 0, []⟩
    (by decide)).2.2.2.1 (BytePack.ofNative 4 305419896)).1

/-! ## Ordered accesses -/

/-- C7, the code at `__CUDA_ARCH__ = 600`: `ld_acquire_sys_global` issues
`ld.volatile.sys.global.u64` followed by `membar.gl`, a device-wide barrier,
where `st_release_sys_global` and `fence_acq_rel_sys` on the same target use
`membar.sys` and only `fence_acq_rel_gpu` uses `membar.gl`; the load is not
the instruction `ld_volatile_global` issues either. -/
theorem acquire_fallback_issues_membar_gl :
    (ld_acquire_sys_global ⟨600, 12010, id⟩ 4096 ⟨fun _ => 0, fun _ => 0, []⟩).2.issued =
      [.ld .volatile (some .sys) .global 1 .u64 4096, .membar .gl] ∧
    (Instr.membar .gl).fenceScope = some Scope.gpu ∧
    (ld_volatile_global_ptr ⟨600, 12010, id⟩ 4096 ⟨fun _ => 0, fun _ => 0, []⟩).2.issued =
      [.ld .volatile none .global 1 .u64 4096] ∧
    (st_release_sys_global ⟨600, 12010, id⟩ 4096 1 ⟨fun _ => 0, fun _ => 0, []⟩).issued =
      [.membar .sys, .st .volatile none .global 1 .u64 4096 [1]] ∧
    (fence_acq_rel_sys ⟨600, 12010, id⟩ ⟨fun _ => 0, fun _ => 0, []⟩).issued =
      [.membar .sys] ∧
    (Instr.membar .sys).fenceScope = some Scope.sys ∧
    (fence_acq_rel_gpu ⟨600, 12010, id⟩ ⟨fun _ => 0, fun _ => 0, []⟩).issued =
      [.membar .gl] := by
  refine ⟨?_, rfl, ?_, ?_, ?_, rfl, ?_⟩ <;> decide

/-- The paths of the ordered accesses other than the acquire fallback: from
generation 700 on each of the four issues its one native `.sys` instruction;
below, the relaxed forms issue the instruction of the plain-volatile access
and the release store issues `membar.sys` followed by the plain-volatile
store. -/
theorem ordered_access_paths (t : Target) (ptr val : Nat) (s : State) :
    (700 ≤ t.cuda_arch →
      (ld_relaxed_sys_global t ptr s).2.issued =
        s.issued ++ [.ld .relaxed (some .sys) .global 1 .u64 (cvta_to_global t ptr)] ∧
      (ld_acquire_sys_global t ptr s).2.issued =
        s.issued ++ [.ld .acquire (some .sys) .global 1 .u64 (cvta_to_global t ptr)] ∧
      (st_relaxed_sys_global t ptr val s).issued =
        s.issued ++ [.st .relaxed (some .sys) .global 1 .u64 (cvta_to_global t ptr) [val]] ∧
      (st_release_sys_global t ptr val s).issued =
        s.issued ++ [.st .release (some .sys) .global 1 .u64 (cvta_to_global t ptr) [val]]) ∧
    (t.cuda_arch < 700 →
      ld_relaxed_sys_global t ptr s = ld_volatile_global_ptr t ptr s ∧
      st_relaxed_sys_global t ptr val s = st_volatile_global t ptr val s ∧
      (st_release_sys_global t ptr val s).issued =
        s.issued ++ [.membar .sys,
          .st .volatile none .global 1 .u64 (cvta_to_global t ptr) [val]] ∧
      (ld_acquire_sys_global t ptr s).2.issued =
        s.issued ++ [.ld .volatile (some .sys) .global 1 .u64 (cvta_to_global t ptr),
          .membar .gl]) := by
  constructor
  · intro h
    simp [ld_relaxed_sys_global, ld_acquire_sys_global, st_relaxed_sys_global,
      st_release_sys_global, h, ptx_ld, ptx_st, State.issue, State.setMem]
  · intro h
    have h' : ¬ (700 ≤ t.cuda_arch) := by omega
    simp [ld_relaxed_sys_global, ld_acquire_sys_global, st_relaxed_sys_global,
      st_release_sys_global, ld_volatile_global_ptr, st_volatile_global, h', ptx_ld, ptx_st,
      ptx_membar, State.issue, State.setMem]

end Op128
